import Mathlib

/-!
Shallow embedding of the brightspace downloader (`main.py`): the archive
classification/extraction loop of `move_and_extract_files`, the per-unit
download driver `dl_units` (its try/except/finally control flow), the
marker-page pruning, the file-move name filter, the `log_in` credential
check and the `__main__` run order.

Python strings are modelled as `String`; `name in s` is `strContains`,
`pathlib.Path.suffix` is `pySuffix`, `s.split(".")[-1]` is `lastDotPart`
and `s.split(".")[0]` is `firstDotPart`.
-/

namespace Brightspace

/-- Python `needle in hay` for strings: `needle` occurs as a contiguous
substring of `hay`. -/
def strContains (hay needle : String) : Bool :=
  hay.toList.tails.any (fun t => needle.toList.isPrefixOf t)

/-- Python `s.split(c)` on a single-character separator, over the
character list: always returns at least one (possibly empty) piece. -/
def splitOnChar (c : Char) : List Char → List (List Char)
  | [] => [[]]
  | x :: xs =>
    let rest := splitOnChar c xs
    if x = c then [] :: rest
    else
      match rest with
      | [] => [[x]]
      | r :: rs => (x :: r) :: rs

/-- Python `s.split(".")` as a list of strings. -/
def splitOnDot (s : String) : List String :=
  (splitOnChar '.' s.toList).map String.mk

/-- Python `s.split(".")[-1]`: the part after the last dot (the whole
string when there is no dot). -/
def lastDotPart (s : String) : String :=
  (splitOnDot s).getLastD s

/-- Python `s.split(".")[0]`: the part before the first dot (the whole
string when there is no dot). -/
def firstDotPart (s : String) : String :=
  (splitOnDot s).headD s

/-- Model of `pathlib.Path(name).suffix`: `".ext"` for a final extension, `""` when
there is no dot, when the only dot is leading (hidden files), or when the
name ends in a dot. -/
def pySuffix (s : String) : String :=
  match splitOnDot s with
  | [] => ""
  | [_] => ""
  | first :: rest =>
    let lastPart := rest.getLastD ""
    if lastPart.isEmpty then ""
    else if first.isEmpty && rest.length == 1 then ""
    else "." ++ lastPart

/-! ## Archive classification and extraction (`move_and_extract_files`, inner zip loop) -/

/-- The list `files_to_folder = ["ipynb", "csv", "txt", "py"]` — member extensions
that cause extraction into a separate subfolder. -/
def files_to_folder : List String := ["ipynb", "csv", "txt", "py"]

/-- Test `name.split(".")[-1] in files_to_folder`: the member counts as a
project file. -/
def isProjectFile (name : String) : Bool :=
  files_to_folder.contains (lastDotPart name)

/-- One `extractall` call of the member loop: either flat into the target
folder, or nested into the named subfolder. -/
inductive ExtractAction where
  | flat : ExtractAction
  | nested : String → ExtractAction
deriving DecidableEq, Repr

/-- The member loop of `move_and_extract_files` (lines 251-257): scan
`zip_names` in listing order; a project-file member triggers one nested
`extractall` into `zip_ref.filename.split(".")[0]` and `break`; every
other member triggers a flat `extractall` into the target folder and the
loop continues. -/
def scanZipNames (base : String) : List String → List ExtractAction
  | [] => []
  | n :: ns =>
    if isProjectFile n then [ExtractAction.nested base]
    else ExtractAction.flat :: scanZipNames base ns

/-- Outcome of processing one `.zip` file: the `extractall` calls
performed, and whether `new_path.unlink()` ran afterwards. -/
structure ZipOutcome where
  actions : List ExtractAction
  deleted : Bool
deriving DecidableEq, Repr

/-- Lines 246-260 of `move_and_extract_files`: list the members; if more
than 15, `continue` (no extraction, no deletion); otherwise run the member
loop and then delete the archive. -/
def processZip (archiveName : String) (members : List String) : ZipOutcome :=
  if members.length > 15 then { actions := [], deleted := false }
  else { actions := scanZipNames (firstDotPart archiveName) members, deleted := true }

/-- The spec's decision type for the archive classifier. -/
inductive Decision where
  | SKIP : Decision
  | EXTRACT_FLAT : Decision
  | EXTRACT_NESTED : String → Decision
deriving DecidableEq, Repr

/-- The decision the code's control flow amounts to: skip oversized
archives, extract nested on the first project-file member, else flat. -/
def codeDecision (archiveName : String) (members : List String) : Decision :=
  if members.length > 15 then Decision.SKIP
  else if members.any isProjectFile then Decision.EXTRACT_NESTED (firstDotPart archiveName)
  else Decision.EXTRACT_FLAT

lemma scanZipNames_of_any (base : String) :
    ∀ members : List String, members.any isProjectFile = true →
    scanZipNames base members =
      List.replicate (members.takeWhile (fun m => !isProjectFile m)).length ExtractAction.flat
        ++ [ExtractAction.nested base] := by
  intro members h
  induction members with
  | nil => simp at h
  | cons m ms ih =>
    by_cases hm : isProjectFile m = true
    · simp [scanZipNames, hm, List.takeWhile]
    · have hm' : isProjectFile m = false := by
        cases hmv : isProjectFile m
        · rfl
        · exact absurd hmv hm
      have hms : ms.any isProjectFile = true := by
        simpa [List.any_cons, hm'] using h
      simp [scanZipNames, hm', List.takeWhile, List.replicate_succ, ih hms]

lemma scanZipNames_of_none (base : String) :
    ∀ members : List String, members.any isProjectFile = false →
    scanZipNames base members = List.replicate members.length ExtractAction.flat := by
  intro members h
  induction members with
  | nil => simp [scanZipNames]
  | cons m ms ih =>
    have hm : isProjectFile m = false := by
      cases hmv : isProjectFile m
      · rfl
      · simp [List.any_cons, hmv] at h
    have hms : ms.any isProjectFile = false := by
      simpa [List.any_cons, hm] using h
    simp [scanZipNames, hm, List.replicate_succ, ih hms]

lemma processZip_actions_of_le (name : String) (members : List String)
    (hcap : members.length ≤ 15) :
    (processZip name members).actions = scanZipNames (firstDotPart name) members := by
  simp [processZip, Nat.not_lt_of_le hcap]

/-! ## The per-unit download driver (`dl_units`, lines 187-217) -/

/-- A selenium exception kind as seen by the `except` clauses of
`dl_units`: `StaleElementReferenceException`, `NoSuchElementException`, or
any other exception type (uncaught). -/
inductive Exc where
  | stale : Exc
  | noSuch : Exc
  | other : Exc
deriving DecidableEq, Repr

/-- The environment of one unit iteration: what the `try` body
(lookup + click) raises, what the stale handler's re-lookup + click raises
(consulted only when the body raised `stale`), and whether the page body
text is non-empty (consulted only on `NoSuchElementException`). -/
structure UnitBehavior where
  tryBody : Option Exc
  retryOutcome : Option Exc
  bodyNonEmpty : Bool
deriving DecidableEq, Repr

/-- The state a unit iteration ends in: completed download, saved-page
fallback, skipped-with-log (`continue`), or an exception propagating out
of the iteration. -/
inductive UnitResult where
  | completed : UnitResult
  | savedPage : UnitResult
  | skipped : UnitResult
  | raised : Exc → UnitResult
deriving DecidableEq, Repr

/-- Returns `true` exactly on the `raised` results. -/
def UnitResult.isRaised : UnitResult → Bool
  | UnitResult.raised _ => true
  | _ => false

/-- Observable steps of one unit iteration of `dl_units`. -/
inductive Action where
  | mkdirUnit : Action
  | clickUnit : Action
  | locate : Action
  | click : Action
  | relocate : Action
  | savePage : Action
  | logError : Action
  | logFinished : Action
  | normalize : Action
  | cleanup : Action
deriving DecidableEq, Repr

/-- The `try`/`except` part of one iteration (lines 198-212): body
success clicks; `StaleElementReferenceException` re-locates once and
retries the click (a failure there propagates — no handler encloses the
handler); `NoSuchElementException` saves the page when the body text is
non-empty, else logs and `continue`s; any other exception propagates. -/
def tryExceptPart (b : UnitBehavior) : List Action × UnitResult :=
  match b.tryBody with
  | none => ([Action.locate, Action.click], UnitResult.completed)
  | some Exc.stale =>
    match b.retryOutcome with
    | none => ([Action.locate, Action.relocate, Action.click], UnitResult.completed)
    | some e => ([Action.locate, Action.relocate], UnitResult.raised e)
  | some Exc.noSuch =>
    if b.bodyNonEmpty then ([Action.locate, Action.savePage], UnitResult.savedPage)
    else ([Action.locate, Action.logError], UnitResult.skipped)
  | some Exc.other => ([Action.locate], UnitResult.raised Exc.other)

/-- The `finally` block (lines 213-217): log, `move_and_extract_files`
on the unit's target path, then `clean_up_files` on it. Python runs it on
every exit of the `try` statement — normal fall-through, `continue`, and a
propagating exception alike. -/
def finallyBlock : List Action :=
  [Action.logFinished, Action.normalize, Action.cleanup]

/-- One full unit iteration: mkdir + unit click, the `try`/`except` part,
then the `finally` block appended on every path. -/
def processUnit (b : UnitBehavior) : List Action × UnitResult :=
  let tr := tryExceptPart b
  ((Action.mkdirUnit :: Action.clickUnit :: tr.1) ++ finallyBlock, tr.2)

/-- The `for unit in units` loop of `dl_units`: each iteration runs
`processUnit`; a propagating exception ends the loop (its `finally` has
already run), any other result continues with the next unit. Returns the
per-unit traces/results of the iterations that ran, and the exception
that escaped the loop, if any. -/
def dlUnits : List UnitBehavior → List (List Action × UnitResult) × Option Exc
  | [] => ([], none)
  | b :: bs =>
    let pr := processUnit b
    match pr.2 with
    | UnitResult.raised e => ([pr], some e)
    | _ =>
      let rest := dlUnits bs
      (pr :: rest.1, rest.2)

lemma tryExceptPart_no_finally_actions (b : UnitBehavior) :
    (tryExceptPart b).1.count Action.normalize = 0 ∧
    (tryExceptPart b).1.count Action.cleanup = 0 := by
  obtain ⟨tb, ro, bn⟩ := b
  rcases tb with _ | e
  · rcases ro with _ | e' <;> [skip; cases e'] <;> cases bn <;> decide
  · cases e <;> rcases ro with _ | e' <;> [skip; cases e'; skip; cases e'; skip; cases e'] <;>
      cases bn <;> decide

/-! ## Marker pruning (`move_and_extract_files` lines 264-266, `clean_up_files`) -/

/-- Model of `clean_up_files(folder, extensions)` (lines 280-289): the files that
remain in the folder are exactly those whose `pathlib` suffix is not in
`extensions`; the others are unlinked. -/
def clean_up_files (folder : List String) (extensions : List String) : List String :=
  folder.filter (fun f => !(extensions.contains (pySuffix f)))

/-- Test for `target_path.glob("*.html*")`: the file name contains `".html"`. -/
def isHtmlGlobMatch (f : String) : Bool :=
  strContains f ".html"

/-- The sentinel test of line 265: `"Table of Contents" in html_file.name`. -/
def hasSentinel (f : String) : Bool :=
  strContains f "Table of Contents"

/-- Lines 264-266 of `move_and_extract_files`: iterate over the folder's
`*.html*` matches; for each one whose name contains the sentinel, call
`clean_up_files(target_path, extensions=[".html"])` on the current folder
state. Returns the files that remain. -/
def markerSweep (folder : List String) : List String :=
  (folder.filter isHtmlGlobMatch).foldl
    (fun current f =>
      if hasSentinel f then clean_up_files current [".html"] else current)
    folder

/-! ## The move filter of `move_and_extract_files` (lines 230-239) -/

/-- Line 231: the files directly under the source folder whose `pathlib`
suffix is one of `extensions`. -/
def extensionFiles (folder : List String) (extensions : List String) : List String :=
  folder.filter (fun f => extensions.contains (pySuffix f))

/-- Line 236: `[file for file in files for name in zip_file_names if name
in file.name]` — one occurrence of `file` per matching `name`. -/
def filtered_files (files : List String) (zip_file_names : List String) : List String :=
  files.flatMap (fun file =>
    (zip_file_names.filter (fun name => strContains file name)).map (fun _ => file))

/-- Line 239: `for file in filtered_files or files` — the filtered list
when it is non-empty, otherwise ALL extension-matching files. -/
def files_to_process (files : List String) (zip_file_names : List String) : List String :=
  let filtered := filtered_files files zip_file_names
  if filtered.isEmpty then files else filtered

/-- The set of files `move_and_extract_files` moves out of the source
folder, given the folder contents, the extension list and a (non-`None`)
`zip_file_names` filter. -/
def movedFiles (folder : List String) (extensions : List String)
    (zip_file_names : List String) : List String :=
  files_to_process (extensionFiles folder extensions) zip_file_names

/-- Entry of `move_and_extract_files` (lines 220-239) with the
`zip_file_names` parameter as passed (`none` models Python `None`): the
local `filtered_files` is only assigned under `if zip_file_names is not
None`; line 239 then reads it — an unassigned read is a `NameError`. -/
def move_and_extract_entry (folder : List String) (extensions : List String)
    (zip_file_names : Option (List String)) : Except String (List String) :=
  let files := extensionFiles folder extensions
  let filtered : Option (List String) :=
    match zip_file_names with
    | some names => some (filtered_files files names)
    | none => none
  match filtered with
  | some fl => Except.ok (if fl.isEmpty then files else fl)
  | none => Except.error "NameError: name filtered_files is not defined"

/-- The default `extensions=[".zip", ".html", ".part"]` of
`move_and_extract_files`. -/
def defaultExtensions : List String := [".zip", ".html", ".part"]

lemma contains_singleton (t s : String) : [t].contains s = decide (s = t) := by
  simp [List.contains]

lemma clean_up_files_html (folder : List String) :
    clean_up_files folder [".html"] =
      folder.filter (fun f => decide (pySuffix f ≠ ".html")) := by
  unfold clean_up_files
  apply List.filter_congr
  intro f _
  simp [List.contains]

lemma clean_up_files_idem (folder extensions : List String) :
    clean_up_files (clean_up_files folder extensions) extensions =
      clean_up_files folder extensions := by
  simp [clean_up_files, List.filter_filter]

lemma markerSweep_fold (L : List String) : ∀ acc : List String,
    L.foldl (fun current f =>
        if hasSentinel f then clean_up_files current [".html"] else current) acc =
      if L.any hasSentinel then clean_up_files acc [".html"] else acc := by
  induction L with
  | nil => intro acc; rfl
  | cons f L ih =>
    intro acc
    cases hf : hasSentinel f with
    | true =>
      rw [List.foldl_cons, if_pos hf, ih, List.any_cons, hf]
      by_cases hL : L.any hasSentinel = true <;> simp [hL, clean_up_files_idem]
    | false =>
      rw [List.foldl_cons, if_neg (by simp [hf]), ih, List.any_cons, hf]
      simp

lemma markerSweep_eq (folder : List String) :
    markerSweep folder =
      if (folder.filter isHtmlGlobMatch).any hasSentinel then
        clean_up_files folder [".html"]
      else folder :=
  markerSweep_fold (folder.filter isHtmlGlobMatch) folder

lemma mem_filtered_files {f : String} {files names : List String}
    (h : f ∈ filtered_files files names) :
    f ∈ files ∧ names.any (fun n => strContains f n) = true := by
  simp only [filtered_files, List.mem_flatMap, List.mem_map, List.mem_filter] at h
  obtain ⟨file, hfile, x, ⟨hx, hc⟩, hef⟩ := h
  subst hef
  exact ⟨hfile, by simp only [List.any_eq_true]; exact ⟨x, hx, hc⟩⟩

lemma filtered_files_nil_names (files : List String) :
    filtered_files files [] = [] := by
  induction files with
  | nil => rfl
  | cons f fs ih => simp [filtered_files, List.flatMap_cons] at ih ⊢

/-! ## The run order of `__main__` (lines 348-368) and `log_in` (lines 96-120) -/

/-- Observable events of the whole run. -/
inductive Event where
  | loadCourseList : Event
  | networkFetch : String → Event
  | credentialCheck : Event
  | exitRun : Event
  | loginFormSubmit : Event
  | cleanupRun : Event
  | courseVisit : String → Event
deriving DecidableEq, Repr

/-- Returns `true` exactly on network events (HTTP requests and page fetches). -/
def Event.isNetworkFetch : Event → Bool
  | Event.networkFetch _ => true
  | _ => false

/-- Model of `dl_bootcamp_files` (lines 305-345): fetch the bootcamp listing page
over HTTP, then download each discovered link — all network activity. -/
def bootcampTrace (links : List String) : List Event :=
  Event.networkFetch "bootcamp listing page" :: links.map Event.networkFetch

/-- Model of `log_in` (lines 96-120): the credential check of lines 102-104 runs
first; on a missing username or password `sys.exit` terminates the run,
otherwise the login page is fetched and the sign-in form submitted. -/
def logInTrace (hasUser hasPassword : Bool) : List Event :=
  if !hasUser || !hasPassword then
    [Event.credentialCheck, Event.exitRun]
  else
    [Event.credentialCheck, Event.networkFetch "login page", Event.loginFormSubmit]

/-- Whether `log_in` calls `sys.exit` (line 104). -/
def logInExits (hasUser hasPassword : Bool) : Bool :=
  !hasUser || !hasPassword

/-- The `__main__` block (lines 348-368): load the course list, run the
bootcamp ingest, log in (which may exit the process), pre-run cleanup,
the per-course loop (cleanup then course visit), post-run cleanup. -/
def mainTrace (hasUser hasPassword : Bool) (bootcampLinks courses : List String) :
    List Event :=
  Event.loadCourseList ::
    bootcampTrace bootcampLinks ++
    logInTrace hasUser hasPassword ++
    (if logInExits hasUser hasPassword then []
     else
       Event.cleanupRun ::
         courses.flatMap (fun c => [Event.cleanupRun, Event.courseVisit c]) ++
         [Event.cleanupRun])

lemma dropWhile_fetches (p : Event → Bool)
    (hp : ∀ s, p (Event.networkFetch s) = true) :
    ∀ (links : List String) (rest : List Event),
      ((links.map Event.networkFetch) ++ rest).dropWhile p = rest.dropWhile p := by
  intro links
  induction links with
  | nil => intro rest; rfl
  | cons l ls ih =>
    intro rest
    simp only [List.map_cons, List.cons_append, List.dropWhile_cons, hp l, if_true]
    exact ih rest

end Brightspace

open Brightspace

/-- C1 counterexample: on the member list `["a.pdf", "b.ipynb"]` the code
performs a flat `extractall` (for the `a.pdf` iteration) before the nested
one, so the claim "no member is extracted flat" is false. -/
theorem C1_counterexample :
    ExtractAction.flat ∈ (processZip "archive.zip" ["a.pdf", "b.ipynb"]).actions := by
  decide

/-- C1 amended: for an archive within the member cap that contains a
project-file member, the scan stops at the first such member (first-match-
wins) and its last extraction is nested into a subfolder named after the
archive's base name — but each member before the first match additionally
triggers a flat `extractall`, so flat extraction does occur whenever a
non-project member precedes the first project-file member. -/
theorem C1_amended_nested_last_but_flat_before
    (name : String) (members : List String)
    (hcap : members.length ≤ 15)
    (hproj : members.any isProjectFile = true) :
    (processZip name members).actions =
      List.replicate (members.takeWhile (fun m => !isProjectFile m)).length
          ExtractAction.flat
        ++ [ExtractAction.nested (firstDotPart name)] ∧
    (processZip name members).actions.getLast? =
      some (ExtractAction.nested (firstDotPart name)) := by
  have h := scanZipNames_of_any (firstDotPart name) members hproj
  have hact := processZip_actions_of_le name members hcap
  constructor
  · rw [hact, h]
  · rw [hact, h, List.getLast?_append]
    simp

/-- C1 witness: the amended theorem evaluated at the claim's own example
`["a.pdf", "b.ipynb"]` — one flat extraction, then the nested one into
`"archive"`, which is also the final action. -/
theorem C1_amended_witness :
    (processZip "archive.zip" ["a.pdf", "b.ipynb"]).actions =
      List.replicate ((["a.pdf", "b.ipynb"].takeWhile (fun m => !isProjectFile m)).length)
          ExtractAction.flat
        ++ [ExtractAction.nested (firstDotPart "archive.zip")] ∧
    (processZip "archive.zip" ["a.pdf", "b.ipynb"]).actions.getLast? =
      some (ExtractAction.nested (firstDotPart "archive.zip")) :=
  C1_amended_nested_last_but_flat_before "archive.zip" ["a.pdf", "b.ipynb"]
    (by decide) (by decide)

/-- C2: an archive whose member listing exceeds the cap of 15 is skipped
(`continue`): no `extractall` runs (so no member is extracted and no
subfolder is created) and the archive is not deleted; the model raises no
error on this path. -/
theorem C2_oversize_skip (name : String) (members : List String)
    (hcap : members.length > 15) :
    (processZip name members).actions = [] ∧
    (processZip name members).deleted = false ∧
    codeDecision name members = Decision.SKIP := by
  refine ⟨?_, ?_, ?_⟩ <;> simp [processZip, codeDecision, hcap]

/-- C2 witness: a 16-member archive is skipped whatever its member names. -/
theorem C2_oversize_skip_witness :
    (processZip "big.zip" (List.replicate 16 "a.ipynb")).actions = [] ∧
    (processZip "big.zip" (List.replicate 16 "a.ipynb")).deleted = false ∧
    codeDecision "big.zip" (List.replicate 16 "a.ipynb") = Decision.SKIP :=
  C2_oversize_skip "big.zip" (List.replicate 16 "a.ipynb") (by decide)

/-- C4 counterexample: a unit whose first lookup raises
`StaleElementReferenceException` and whose single retry raises again does
NOT end in state `skipped` — the exception propagates out of the
iteration (`raised`), contradicting "the unit ends in state SKIPPED ...
and no exception is raised out of the per-unit processing". -/
theorem C4_counterexample :
    (processUnit ⟨some Exc.stale, some Exc.stale, true⟩).2 =
        UnitResult.raised Exc.stale ∧
    (processUnit ⟨some Exc.stale, some Exc.stale, true⟩).2 ≠
        UnitResult.skipped := by
  decide

/-- C4 amended: on a stale first lookup the driver re-locates exactly once
and retries; if the retry succeeds the unit completes, but if the retry
also fails the exception propagates out of the per-unit processing (the
unit does not end `skipped`; `skipped` arises only on the missing-control,
empty-body path). -/
theorem C4_amended_stale_retry (b : UnitBehavior)
    (h : b.tryBody = some Exc.stale) :
    (processUnit b).1.count Action.relocate = 1 ∧
    (b.retryOutcome = none → (processUnit b).2 = UnitResult.completed) ∧
    (∀ e, b.retryOutcome = some e → (processUnit b).2 = UnitResult.raised e) ∧
    (∀ e, b.retryOutcome = some e → (processUnit b).2 ≠ UnitResult.skipped) := by
  obtain ⟨tb, ro, bn⟩ := b
  change tb = some Exc.stale at h
  subst h
  refine ⟨?_, ?_, ?_, ?_⟩
  · rcases ro with _ | e
    · cases bn <;> decide
    · cases e <;> cases bn <;> decide
  · intro hro
    change ro = none at hro
    subst hro
    rfl
  · intro e hro
    change ro = some e at hro
    subst hro
    rfl
  · intro e hro
    change ro = some e at hro
    subst hro
    simp [processUnit, tryExceptPart]

/-- C4 witness: the amended theorem at the doubly-stale unit — one
re-locate, and the result is the propagated stale exception, not
`skipped`. -/
theorem C4_amended_stale_retry_witness :
    (processUnit ⟨some Exc.stale, some Exc.stale, true⟩).1.count Action.relocate = 1 ∧
    (processUnit ⟨some Exc.stale, some Exc.stale, true⟩).2 =
        UnitResult.raised Exc.stale ∧
    (processUnit ⟨some Exc.stale, some Exc.stale, true⟩).2 ≠ UnitResult.skipped := by
  have h := C4_amended_stale_retry ⟨some Exc.stale, some Exc.stale, true⟩ rfl
  exact ⟨h.1, h.2.2.1 Exc.stale rfl, h.2.2.2 Exc.stale rfl⟩

/-- C5 counterexample: with two units, the first failing in its stale
retry, only one unit is processed — the failure of the first unit
prevents the processing of the second one. -/
theorem C5_counterexample :
    (dlUnits [⟨some Exc.stale, some Exc.stale, true⟩,
              ⟨none, none, true⟩]).1.length = 1 ∧
    [(⟨some Exc.stale, some Exc.stale, true⟩ : UnitBehavior),
     ⟨none, none, true⟩].length = 2 := by
  decide

/-- C5 amended: a per-unit failure that the handlers absorb (a missing
control, or a stale lookup whose single retry succeeds) never prevents
the subsequent units — the loop continues with the next unit exactly as if
the unit had succeeded; only a propagating exception (an unhandled kind,
or a failing stale retry) stops the remaining units of the course. -/
theorem C5_amended_handled_failure_continues (b : UnitBehavior)
    (bs : List UnitBehavior)
    (h : (processUnit b).2.isRaised = false) :
    (dlUnits (b :: bs)).1 = processUnit b :: (dlUnits bs).1 ∧
    (dlUnits (b :: bs)).2 = (dlUnits bs).2 := by
  cases hr : (processUnit b).2 with
  | completed => constructor <;> simp [dlUnits, hr]
  | savedPage => constructor <;> simp [dlUnits, hr]
  | skipped => constructor <;> simp [dlUnits, hr]
  | raised e => rw [hr] at h; exact absurd h (by simp [UnitResult.isRaised])

/-- C5 witness: a unit that is skipped (missing control, empty body) is a
failure, yet the following unit is still processed. -/
theorem C5_amended_witness :
    (dlUnits [⟨some Exc.noSuch, none, false⟩, ⟨none, none, true⟩]).1 =
        processUnit ⟨some Exc.noSuch, none, false⟩ ::
          (dlUnits [⟨none, none, true⟩]).1 ∧
    (dlUnits [⟨some Exc.noSuch, none, false⟩, ⟨none, none, true⟩]).2 =
        (dlUnits [⟨none, none, true⟩]).2 :=
  C5_amended_handled_failure_continues ⟨some Exc.noSuch, none, false⟩
    [⟨none, none, true⟩] (by decide)

/-- C3: an archive is deleted after processing exactly when its decision
is not SKIP — extracted-then-deleted for `EXTRACT_FLAT` and
`EXTRACT_NESTED`, left undeleted for `SKIP`; there is no third state. -/
theorem C3_extract_then_delete (name : String) (members : List String) :
    (processZip name members).deleted = true ↔
      codeDecision name members ≠ Decision.SKIP := by
  by_cases h : members.length > 15
  · simp [processZip, codeDecision, h]
  · by_cases hp : members.any isProjectFile = true
    · simp [processZip, codeDecision, h, hp]
    · simp [processZip, codeDecision, h, hp]

/-- C6 counterexample: with `["Table of Contents.html", "notes.html"]` in
the folder, `notes.html` does not contain the sentinel, yet the sweep
deletes it too — `clean_up_files(target_path, [".html"])` removes every
`.html` file once any sentinel page is present. -/
theorem C6_counterexample :
    hasSentinel "notes.html" = false ∧
    "notes.html" ∉ markerSweep ["Table of Contents.html", "notes.html"] := by
  decide

/-- C6 amended: if some `*.html*` file of the folder contains the
sentinel, the sweep deletes ALL files with suffix `.html` (sentinel or
not) and retains the rest; if no file contains the sentinel, every file is
retained. -/
theorem C6_amended_sentinel_purges_all_html (folder : List String) :
    markerSweep folder =
      if (folder.filter isHtmlGlobMatch).any hasSentinel = true then
        folder.filter (fun f => decide (pySuffix f ≠ ".html"))
      else folder := by
  rw [markerSweep_eq]
  by_cases h : (folder.filter isHtmlGlobMatch).any hasSentinel = true
  · rw [if_pos h, if_pos h, clean_up_files_html]
  · rw [if_neg h, if_neg h]

/-- C7 counterexample: with a non-empty name filter `["Course 1"]` that
matches no file, `leftover.zip` (which contains none of the substrings)
is still moved — the `filtered_files or files` fallback moves all
extension-matching files. -/
theorem C7_counterexample :
    (["Course 1"] : List String) ≠ [] ∧
    "leftover.zip" ∈ movedFiles ["leftover.zip"] defaultExtensions ["Course 1"] ∧
    ["Course 1"].any (fun n => strContains "leftover.zip" n) = false := by
  decide

/-- C7 amended: when the name filter matches at least one file, only files
containing one of the substrings are moved; when it matches none, the
fallback moves ALL extension-matching files, matched or not. -/
theorem C7_amended_filter_with_fallback (folder extensions names : List String) :
    (∀ f, f ∈ movedFiles folder extensions names →
        filtered_files (extensionFiles folder extensions) names ≠ [] →
        names.any (fun n => strContains f n) = true) ∧
    (filtered_files (extensionFiles folder extensions) names = [] →
        movedFiles folder extensions names = extensionFiles folder extensions) := by
  constructor
  · intro f hf hne
    have hem : (filtered_files (extensionFiles folder extensions) names).isEmpty = false := by
      cases hv : (filtered_files (extensionFiles folder extensions) names).isEmpty
      · rfl
      · exact absurd (List.isEmpty_iff.mp hv) hne
    rw [movedFiles, files_to_process] at hf
    simp only [hem, Bool.false_eq_true, if_false] at hf
    exact (mem_filtered_files hf).2
  · intro he
    rw [movedFiles, files_to_process, he]
    rfl

/-- C7 witness: the amended theorem at a matching file (only substring
matches are moved) and at a non-matching filter (fallback to all files). -/
theorem C7_amended_witness :
    ["Course"].any (fun n => strContains "HW Course 1.zip" n) = true ∧
    movedFiles ["x.zip"] defaultExtensions ["Q"] =
      extensionFiles ["x.zip"] defaultExtensions :=
  ⟨(C7_amended_filter_with_fallback ["HW Course 1.zip"] defaultExtensions
      ["Course"]).1 "HW Course 1.zip" (by decide) (by decide),
   (C7_amended_filter_with_fallback ["x.zip"] defaultExtensions ["Q"]).2 (by decide)⟩

/-- C9: calling `move_and_extract_files` with `zip_file_names=None` skips
the only assignment of the local `filtered_files` and then reads it at
line 239 — a `NameError` — while the default `[]` always assigns it and
completes (falling back to all extension-matching files). -/
theorem C9_none_crashes_default_does_not (folder : List String) :
    move_and_extract_entry folder defaultExtensions none =
      Except.error "NameError: name filtered_files is not defined" ∧
    move_and_extract_entry folder defaultExtensions (some []) =
      Except.ok (extensionFiles folder defaultExtensions) := by
  constructor
  · rfl
  · simp [move_and_extract_entry, filtered_files_nil_names]

/-- C10: every unit iteration of `dl_units`, whatever its outcome
(completed download, saved-page fallback, skip, or a propagating
exception), runs the `finally` block exactly once: one
`move_and_extract_files` and one `clean_up_files`, in that order, at the
end of the iteration. -/
theorem C10_normalize_exactly_once (b : UnitBehavior) :
    (processUnit b).1.count Action.normalize = 1 ∧
    (processUnit b).1.count Action.cleanup = 1 ∧
    ∃ pre, (processUnit b).1 =
      pre ++ [Action.logFinished, Action.normalize, Action.cleanup] := by
  have h := tryExceptPart_no_finally_actions b
  refine ⟨?_, ?_, Action.mkdirUnit :: Action.clickUnit :: (tryExceptPart b).1, rfl⟩
  · simp [processUnit, finallyBlock, List.count_append, List.count_cons, h.1]
  · simp [processUnit, finallyBlock, List.count_append, List.count_cons, h.2]

/-- C8 counterexample: in a run with missing credentials, network activity
(the bootcamp ingest's HTTP fetches) occurs strictly before the credential
check — the trace up to the check already contains a network fetch. -/
theorem C8_counterexample :
    ((mainTrace false false ["files.zip"] ["210338"]).takeWhile
        (fun e => !(e == Event.credentialCheck))).any Event.isNetworkFetch = true ∧
    Event.credentialCheck ∈ mainTrace false false ["files.zip"] ["210338"] := by
  decide

/-- C8 amended: a missing username or password still terminates the whole
run as a fatal configuration error — the credential check is immediately
followed by process exit, nothing further runs, and no course page is ever
visited; the check also precedes the login-page fetch inside `log_in` —
but it is NOT reported before all network activity: the bootcamp ingest's
fetches happen first. -/
theorem C8_amended_exit_but_after_bootcamp (hasUser hasPassword : Bool)
    (links courses : List String)
    (h : logInExits hasUser hasPassword = true) :
    (mainTrace hasUser hasPassword links courses).dropWhile
        (fun e => !(e == Event.credentialCheck)) =
      [Event.credentialCheck, Event.exitRun] ∧
    (∀ c, Event.courseVisit c ∉ mainTrace hasUser hasPassword links courses) ∧
    (logInTrace hasUser hasPassword).head? = some Event.credentialCheck := by
  have hlog : logInTrace hasUser hasPassword = [Event.credentialCheck, Event.exitRun] := by
    rw [logInTrace, if_pos]
    exact h
  refine ⟨?_, ?_, ?_⟩
  · rw [mainTrace, if_pos h, hlog, bootcampTrace]
    simp only [List.append_nil, List.cons_append]
    have h1 : ∀ Z : List Event,
        List.dropWhile (fun e => !(e == Event.credentialCheck))
          (Event.loadCourseList :: Event.networkFetch "bootcamp listing page" :: Z) =
          List.dropWhile (fun e => !(e == Event.credentialCheck)) Z := fun Z => rfl
    rw [h1, dropWhile_fetches _ (fun s => rfl) links]
    rfl
  · intro c
    rw [mainTrace, if_pos h, hlog, bootcampTrace]
    simp [Event.isNetworkFetch, List.mem_append, List.mem_map]
  · rw [hlog]
    rfl

/-- C8 witness: the amended theorem with the password missing, one
bootcamp link and one course. -/
theorem C8_amended_witness :
    (mainTrace true false ["files.zip"] ["210338"]).dropWhile
        (fun e => !(e == Event.credentialCheck)) =
      [Event.credentialCheck, Event.exitRun] ∧
    Event.courseVisit "210338" ∉ mainTrace true false ["files.zip"] ["210338"] ∧
    (logInTrace true false).head? = some Event.credentialCheck := by
  have h := C8_amended_exit_but_after_bootcamp true false ["files.zip"] ["210338"]
    (by decide)
  exact ⟨h.1, h.2.1 "210338", h.2.2⟩
